import Mathlib

/-!
Verification development for the Editorial Segmentation & Recovery Engine of
the codeforces-rag repository.

The Python source (src/parser/src/infrastructure/parsers/editorial_content_parser.py
and src/parser/src/services/contest.py) is shallowly embedded here.  Python
strings are modelled as `List Char`; Python `None`-able strings as
`Option (List Char)`; functions that can raise uncaught exceptions return
`Option`-typed results where `none` marks the exceptional path (each such spot
is commented).  Character classification and case mapping model Python's
behaviour on ASCII plus the basic Cyrillic block (the only ranges the source
exercises); full Unicode tables are not modelled.
-/

/-- Convert a Lean string literal to the `List Char` representation used
throughout this development. -/
def chars (s : String) : List Char := s.data

/-- The character `{` (written via its code point to keep string/char syntax plain). -/
def lbrace : Char := Char.ofNat 123

/-- The character `}`. -/
def rbrace : Char := Char.ofNat 125

/-- Python `str.isdigit` restricted to ASCII digits. -/
def pyIsDigit (c : Char) : Bool := 48 ≤ c.toNat && c.toNat ≤ 57

/-- ASCII letters. -/
def pyIsAsciiAlpha (c : Char) : Bool :=
  (65 ≤ c.toNat && c.toNat ≤ 90) || (97 ≤ c.toNat && c.toNat ≤ 122)

/-- Basic Cyrillic letters (А-я plus Ё/ё), the only non-ASCII letters the
source mentions. -/
def pyIsCyr (c : Char) : Bool :=
  (0x410 ≤ c.toNat && c.toNat ≤ 0x44F) || c.toNat = 0x401 || c.toNat = 0x451

/-- Python `str.isalpha` on the character ranges relevant to the source. -/
def pyIsAlpha (c : Char) : Bool := pyIsAsciiAlpha c || pyIsCyr c

/-- Python `str.isalnum`-style check used by the problem-id normalizer
(`isalpha or isdigit` as written in the source loop). -/
def pyIsAlnum (c : Char) : Bool := pyIsAlpha c || pyIsDigit c

/-- Python whitespace for `str.strip` / `str.split`: space, \t, \n, \r, \v, \f
(Unicode spaces not modelled). -/
def isPySpace (c : Char) : Bool :=
  c.toNat = 32 || c.toNat = 9 || c.toNat = 10 || c.toNat = 13 ||
  c.toNat = 11 || c.toNat = 12

/-- Python `str.upper` on ASCII plus basic Cyrillic. -/
def pyToUpper (c : Char) : Char :=
  if 97 ≤ c.toNat ∧ c.toNat ≤ 122 then Char.ofNat (c.toNat - 32)
  else if 0x430 ≤ c.toNat ∧ c.toNat ≤ 0x44F then Char.ofNat (c.toNat - 32)
  else if c.toNat = 0x451 then Char.ofNat 0x401
  else c

/-- Python `str.upper` lifted to strings. -/
def pyUpper (s : List Char) : List Char := s.map pyToUpper

/-- Python `str.lstrip()` (no argument form). -/
def pyLstrip (s : List Char) : List Char := s.dropWhile isPySpace

/-- Python `str.rstrip()`. -/
def pyRstrip (s : List Char) : List Char :=
  (s.reverse.dropWhile isPySpace).reverse

/-- Python `str.strip()`. -/
def pyStrip (s : List Char) : List Char := pyRstrip (pyLstrip s)

/-- Python slice `s[a:b]` for `a ≤ b` (the only way the source uses it). -/
def pySlice (s : List Char) (a b : Nat) : List Char := (s.take b).drop a

/-- Auxiliary scan for Python `str.find`: returns the first absolute index
`≥ i` at which `p` occurs, scanning the suffix `s`. -/
def findAux (p : List Char) : List Char → Nat → Option Nat
  | [], i => if p.isPrefixOf [] then some i else none
  | c :: rest, i =>
    if p.isPrefixOf (c :: rest) then some i else findAux p rest (i + 1)

/-- Python `text.find(pat)`: index of the first occurrence, `none` for -1. -/
def strFind (t p : List Char) : Option Nat := findAux p t 0

/-- Python `text.find(pat, start)` for `start` arbitrary (Python returns -1
when `start` exceeds the text length). -/
def strFindFrom (t p : List Char) (start : Nat) : Option Nat :=
  if start ≤ t.length then findAux p (t.drop start) start else none

/-- Python `pat in text` (substring containment). -/
def strContains (t p : List Char) : Bool := (strFind t p).isSome

/-- Python `str.split()` (no argument): split on whitespace runs, dropping
empty fields.  Fuel-driven; fuel `s.length + 1` always suffices. -/
def pySplitAux : Nat → List Char → List (List Char)
  | 0, _ => []
  | _, [] => []
  | fuel + 1, s =>
    let t := s.dropWhile isPySpace
    match t with
    | [] => []
    | _ :: _ =>
      t.takeWhile (fun c => !isPySpace c) ::
        pySplitAux fuel (t.dropWhile (fun c => !isPySpace c))

/-- Python `str.split()` wrapper. -/
def pySplit (s : List Char) : List (List Char) := pySplitAux (s.length + 1) s

/-! ## JSON values and a model of Python `json.loads`

`Json` models the values `json.loads` produces: objects are association
lists with Python-dict semantics (duplicate keys: first position, last
value).  Numbers keep their source lexeme — no claim inspects numeric
values, and this sidesteps floating point entirely.  Python's permissive
extras (`NaN`, `Infinity`, `-Infinity`) are accepted as number lexemes.
Strings reject raw control characters (Python's default `strict=True`) and
decode the standard escapes; `\uXXXX` decodes via `Char.ofNat` (lone
surrogates, which Lean `Char` cannot hold, fall to the default character —
unreachable in any scenario the spec describes). -/

inductive Json where
  | null : Json
  | bool (b : Bool) : Json
  | num (lexeme : List Char) : Json
  | str (s : List Char) : Json
  | arr (items : List Json) : Json
  | obj (entries : List (List Char × Json)) : Json

/-- The character `'` (single quote), via its code point. -/
def squote : Char := Char.ofNat 39

/-- JSON whitespace accepted by Python's scanner: space, \t, \n, \r. -/
def jsonWsDrop (s : List Char) : List Char :=
  s.dropWhile (fun c => c == ' ' || c == '\t' || c == '\n' || c == '\r')

/-- Hex digit value. -/
def hexVal (c : Char) : Option Nat :=
  if 48 ≤ c.toNat ∧ c.toNat ≤ 57 then some (c.toNat - 48)
  else if 97 ≤ c.toNat ∧ c.toNat ≤ 102 then some (c.toNat - 87)
  else if 65 ≤ c.toNat ∧ c.toNat ≤ 70 then some (c.toNat - 55)
  else none

/-- Parse a JSON string body (the opening quote already consumed); returns
the decoded characters and the remaining input. -/
def parseStringBody : List Char → Option (List Char × List Char)
  | [] => none
  | c :: rest =>
    if c = '\"' then some ([], rest)
    else if c = '\\' then
      match rest with
      | [] => none
      | e :: rest2 =>
        if e = '\"' then (parseStringBody rest2).map (fun p => ('\"' :: p.1, p.2))
        else if e = '\\' then (parseStringBody rest2).map (fun p => ('\\' :: p.1, p.2))
        else if e = '/' then (parseStringBody rest2).map (fun p => ('/' :: p.1, p.2))
        else if e = 'b' then (parseStringBody rest2).map (fun p => (Char.ofNat 8 :: p.1, p.2))
        else if e = 'f' then (parseStringBody rest2).map (fun p => (Char.ofNat 12 :: p.1, p.2))
        else if e = 'n' then (parseStringBody rest2).map (fun p => ('\n' :: p.1, p.2))
        else if e = 'r' then (parseStringBody rest2).map (fun p => ('\r' :: p.1, p.2))
        else if e = 't' then (parseStringBody rest2).map (fun p => ('\t' :: p.1, p.2))
        else if e = 'u' then
          match rest2 with
          | h1 :: h2 :: h3 :: h4 :: rest3 =>
            match hexVal h1, hexVal h2, hexVal h3, hexVal h4 with
            | some a, some b, some c2, some d =>
              (parseStringBody rest3).map
                (fun p => (Char.ofNat (a * 4096 + b * 256 + c2 * 16 + d) :: p.1, p.2))
            | _, _, _, _ => none
          | _ => none
        else none
    else if c.toNat < 32 then none
    else (parseStringBody rest).map (fun p => (c :: p.1, p.2))

/-- Span of ASCII digits. -/
def spanDigits (s : List Char) : List Char × List Char :=
  (s.takeWhile pyIsDigit, s.dropWhile pyIsDigit)

/-- Optional fraction part of a JSON number (returns its lexeme). -/
def parseFrac : List Char → Option (List Char × List Char)
  | [] => some ([], [])
  | c :: r =>
    if c = '.' then
      let (ds, r2) := spanDigits r
      if ds = [] then none else some ('.' :: ds, r2)
    else some ([], c :: r)

/-- Optional exponent part of a JSON number. -/
def parseExp : List Char → Option (List Char × List Char)
  | [] => some ([], [])
  | c :: r =>
    if c = 'e' ∨ c = 'E' then
      let (sgn, r2) := match r with
        | s :: rr => if s = '+' ∨ s = '-' then ([s], rr) else (([] : List Char), s :: rr)
        | [] => ([], [])
      let (ds, r3) := spanDigits r2
      if ds = [] then none else some (c :: (sgn ++ ds), r3)
    else some ([], c :: r)

/-- Parse a JSON number, keeping the lexeme (grammar of Python's NUMBER_RE:
optional minus, `0` or nonzero-led digits, optional fraction, optional
exponent). -/
def parseNumber (cs : List Char) : Option (List Char × List Char) :=
  let (sgn, cs1) := match cs with
    | c :: r => if c = '-' then (['-'], r) else (([] : List Char), c :: r)
    | [] => ([], [])
  match cs1 with
  | [] => none
  | c :: r =>
    if c = '0' then do
      let (fr, r1) ← parseFrac r
      let (ex, r2) ← parseExp r1
      some (sgn ++ ('0' :: (fr ++ ex)), r2)
    else if pyIsDigit c then do
      let (ds, r0) := spanDigits r
      let (fr, r1) ← parseFrac r0
      let (ex, r2) ← parseExp r1
      some (sgn ++ (c :: ds) ++ fr ++ ex, r2)
    else none

/-- Consume an expected literal suffix. -/
def eatLit (lit cs : List Char) : Option (List Char) :=
  if lit.isPrefixOf cs then some (cs.drop lit.length) else none

/-- Python dict assignment `d[k] = v`: replace in place if the key exists,
else append (first-insertion position, last value). -/
def jsonObjInsert (m : List (List Char × Json)) (k : List Char) (v : Json) :
    List (List Char × Json) :=
  if m.any (fun kv => kv.1 == k) then
    m.map (fun kv => if kv.1 == k then (kv.1, v) else kv)
  else m ++ [(k, v)]

mutual

/-- Parse one JSON value (leading whitespace already skipped).  Fuel-driven;
`jsonParse` supplies ample fuel. -/
def parseValue : Nat → List Char → Option (Json × List Char)
  | 0, _ => none
  | fuel + 1, cs =>
    match cs with
    | [] => none
    | c :: rest =>
      if c = lbrace then
        match jsonWsDrop rest with
        | d :: r2 => if d = rbrace then some (Json.obj [], r2)
                     else parseObjectRest fuel (d :: r2) []
        | [] => none
      else if c = '[' then
        match jsonWsDrop rest with
        | d :: r2 => if d = ']' then some (Json.arr [], r2)
                     else parseArrayRest fuel (d :: r2) []
        | [] => none
      else if c = '\"' then (parseStringBody rest).map (fun p => (Json.str p.1, p.2))
      else if c = 't' then (eatLit (chars "rue") rest).map (fun r => (Json.bool true, r))
      else if c = 'f' then (eatLit (chars "alse") rest).map (fun r => (Json.bool false, r))
      else if c = 'n' then (eatLit (chars "ull") rest).map (fun r => (Json.null, r))
      else if c = 'N' then (eatLit (chars "aN") rest).map (fun r => (Json.num (chars "NaN"), r))
      else if c = 'I' then
        (eatLit (chars "nfinity") rest).map (fun r => (Json.num (chars "Infinity"), r))
      else if c = '-' ∧ (chars "Infinity").isPrefixOf rest then
        some (Json.num (chars "-Infinity"), rest.drop 8)
      else (parseNumber (c :: rest)).map (fun p => (Json.num p.1, p.2))

/-- Parse the elements of a non-empty JSON array (after `[`). -/
def parseArrayRest : Nat → List Char → List Json → Option (Json × List Char)
  | 0, _, _ => none
  | fuel + 1, cs, acc =>
    match parseValue fuel (jsonWsDrop cs) with
    | none => none
    | some (v, r1) =>
      match jsonWsDrop r1 with
      | d :: r3 =>
        if d = ',' then parseArrayRest fuel r3 (acc ++ [v])
        else if d = ']' then some (Json.arr (acc ++ [v]), r3)
        else none
      | [] => none

/-- Parse the members of a non-empty JSON object (after the opening brace). -/
def parseObjectRest : Nat → List Char → List (List Char × Json) →
    Option (Json × List Char)
  | 0, _, _ => none
  | fuel + 1, cs, acc =>
    match jsonWsDrop cs with
    | q :: r1 =>
      if q = '\"' then
        match parseStringBody r1 with
        | none => none
        | some (k, r2) =>
          match jsonWsDrop r2 with
          | col :: r3 =>
            if col = ':' then
              match parseValue fuel (jsonWsDrop r3) with
              | none => none
              | some (v, r4) =>
                match jsonWsDrop r4 with
                | d :: r5 =>
                  if d = ',' then parseObjectRest fuel r5 (jsonObjInsert acc k v)
                  else if d = rbrace then some (Json.obj (jsonObjInsert acc k v), r5)
                  else none
                | [] => none
            else none
          | [] => none
      else none
    | [] => none

end

/-- Model of Python `json.loads`: parse one value and require only
whitespace to remain.  `none` models a raised `json.JSONDecodeError`. -/
def jsonParse (s : List Char) : Option Json :=
  match parseValue (2 * s.length + 8) (jsonWsDrop s) with
  | some (v, rest) => if jsonWsDrop rest = [] then some v else none
  | none => none

/-! ## Python `str()` rendering of parsed JSON values

`_parse_new_format` computes `str(item.get("contest_id", ""))`.  For strings
and numbers this is the text itself; for the other values Python's rendering
is modelled (`True`/`False`/`None`, recursive container repr without the
quote-escaping refinements of CPython's repr — containers never carry contest
ids in any behaviour the spec describes). -/

mutual

/-- Python `repr()` of a parsed JSON value (quote-escaping inside repr of
strings not modelled). -/
def pyRepr : Json → List Char
  | Json.null => chars "None"
  | Json.bool true => chars "True"
  | Json.bool false => chars "False"
  | Json.num lx => lx
  | Json.str s => squote :: (s ++ [squote])
  | Json.arr xs => '[' :: (pyReprItems xs ++ [']'])
  | Json.obj kvs => lbrace :: (pyReprEntries kvs ++ [rbrace])

/-- Comma-joined reprs of array items. -/
def pyReprItems : List Json → List Char
  | [] => []
  | [x] => pyRepr x
  | x :: y :: xs => pyRepr x ++ (',' :: ' ' :: pyReprItems (y :: xs))

/-- Comma-joined reprs of object entries. -/
def pyReprEntries : List (List Char × Json) → List Char
  | [] => []
  | [(k, v)] => (squote :: (k ++ [squote])) ++ (':' :: ' ' :: pyRepr v)
  | (k, v) :: e :: kvs =>
    (squote :: (k ++ [squote])) ++ (':' :: ' ' :: pyRepr v) ++
      (',' :: ' ' :: pyReprEntries (e :: kvs))

end

/-- Python `str()` of a parsed JSON value. -/
def pyStr (j : Json) : List Char :=
  match j with
  | Json.str s => s
  | _ => pyRepr j

/-! ## `_sanitize_json_string` (Response Sanitizer, editorial_content_parser.py:590) -/

/-- The character-by-character sanitizing walk of `_sanitize_json_string`.
`inStr` is the in-string flag; `run` is the number of consecutive backslashes
immediately before the cursor in the ORIGINAL input (the source re-scans
backwards for this; the count is carried instead, with identical parity). -/
def sanitizeWalk : Nat → Bool → Nat → List Char → List Char
  | 0, _, _, _ => []
  | _, _, _, [] => []
  | fuel + 1, inStr, run, c :: rest =>
    if c = '\"' then
      '\"' :: sanitizeWalk fuel (if run % 2 = 0 then !inStr else inStr) 0 rest
    else if inStr then
      if c = '\\' then
        match rest with
        | d :: rest2 =>
          if d = '\\' then '\\' :: '\\' :: sanitizeWalk fuel inStr (run + 2) rest2
          else if d = '\"' ∨ d = 'n' ∨ d = 't' ∨ d = 'r' ∨ d = 'b' ∨ d = 'f' ∨ d = '/' then
            '\\' :: d :: sanitizeWalk fuel inStr 0 rest2
          else '\\' :: '\\' :: sanitizeWalk fuel inStr (run + 1) (d :: rest2)
        | [] => '\\' :: '\\' :: sanitizeWalk fuel inStr (run + 1) []
      else if c = '\n' then '\\' :: 'n' :: sanitizeWalk fuel inStr 0 rest
      else if c = '\t' then '\\' :: 't' :: sanitizeWalk fuel inStr 0 rest
      else if c = '\r' then '\\' :: 'r' :: sanitizeWalk fuel inStr 0 rest
      else if c.toNat = 8 then '\\' :: 'b' :: sanitizeWalk fuel inStr 0 rest
      else if c.toNat = 12 then '\\' :: 'f' :: sanitizeWalk fuel inStr 0 rest
      else c :: sanitizeWalk fuel inStr 0 rest
    else c :: sanitizeWalk fuel inStr (if c = '\\' then run + 1 else 0) rest

/-- `_sanitize_json_string`: fast path returns valid JSON unchanged,
otherwise run the sanitizing walk (fuel `length + 1` suffices: every step
consumes at least one character). -/
def sanitizeJsonString (s : List Char) : List Char :=
  match jsonParse s with
  | some _ => s
  | none => sanitizeWalk (s.length + 1) false 0 s

/-! ## `_attempt_json_repair` (Structural Repairer, editorial_content_parser.py:538) -/

/-- The quote counter of `_attempt_json_repair` (tracks a one-shot escaped
flag exactly as the source loop does). -/
def quoteCountAux : List Char → Bool → Nat
  | [], _ => 0
  | c :: rest, esc =>
    if c = '\\' ∧ !esc then quoteCountAux rest true
    else (if c = '\"' ∧ !esc then 1 else 0) + quoteCountAux rest false

/-- `_attempt_json_repair`: strip, count braces/brackets textually, close an
odd quote, drop one trailing comma, append closers, and keep the result only
if it parses. -/
def attemptJsonRepair (s : List Char) : Option (List Char) :=
  let r0 := pyStrip s
  let openBraces : Int := (r0.count lbrace : Int) - (r0.count rbrace : Int)
  let openBrackets : Int := (r0.count '[' : Int) - (r0.count ']' : Int)
  let qc := quoteCountAux r0 false
  let r1 := if qc % 2 = 1 then r0 ++ ['\"'] else r0
  let r2 := pyRstrip r1
  let r3 := if r2.getLast? = some ',' then pyRstrip r2.dropLast else r2
  let r4 := r3 ++ List.replicate openBrackets.toNat ']' ++
    List.replicate openBraces.toNat rbrace
  match jsonParse r4 with
  | some _ => some r4
  | none => none

/-! ## `_find_matching_brace` (editorial_content_parser.py:780) -/

/-- Scan of `_find_matching_brace`: brace counter ignoring braces inside
quoted strings, with the source's escape handling (including its quirk that
the count may go negative). -/
def findMatchingBraceAux : List Char → Nat → Int → Bool → Bool → Option Nat
  | [], _, _, _, _ => none
  | c :: rest, i, count, inStr, esc =>
    if esc then findMatchingBraceAux rest (i + 1) count inStr false
    else if c = '\\' then findMatchingBraceAux rest (i + 1) count inStr true
    else if c = '\"' then findMatchingBraceAux rest (i + 1) count (!inStr) false
    else if !inStr ∧ c = lbrace then findMatchingBraceAux rest (i + 1) (count + 1) inStr false
    else if !inStr ∧ c = rbrace then
      if count - 1 = 0 then some i
      else findMatchingBraceAux rest (i + 1) (count - 1) inStr false
    else findMatchingBraceAux rest (i + 1) count inStr false

/-- `_find_matching_brace(text, start)`. -/
def findMatchingBrace (text : List Char) (start : Nat) : Option Nat :=
  findMatchingBraceAux (text.drop start) start 0 false false

/-! ## `_normalize_problem_id` (editorial_content_parser.py:470) -/

/-- Largest index holding a non-alphanumeric character (the source scans from
the end and stops at the first such index). -/
def lastNonAlnumIdx (p : List Char) : Option Nat :=
  (p.reverse.findIdx? (fun c => !pyIsAlnum c)).map (fun k => p.length - 1 - k)

/-- Index of the first letter. -/
def firstAlphaIdx (p : List Char) : Option Nat := p.findIdx? pyIsAlpha

/-- Stage: `PROBLEM `/`ЗАДАЧА ` phrases — take the trailing token when it is
a letter plus at most one more character; otherwise fall through. -/
def normalizeStage2 (p : List Char) : Option (List Char) :=
  if (chars "PROBLEM ").isPrefixOf p ∨ (chars "ЗАДАЧА ").isPrefixOf p then
    let parts := pySplit p
    if parts.length ≥ 2 then
      let lastPart := (parts.getLast?).getD []
      if lastPart.length ≤ 2 ∧ pyIsAlpha (lastPart.headD ' ') then some lastPart else none
    else none
  else none

/-- Stage: two characters, letter then digit. -/
def normalizeStage3 (p : List Char) : Option (List Char) :=
  if p.length = 2 ∧ pyIsAlpha (p.headD ' ') ∧ pyIsDigit (p.getD 1 ' ') then some p
  else none

/-- Stage: trailing-letter scan (`1900A` style).  When some non-alphanumeric
character exists, take everything after the last one if that starts with a
letter, else fall through (the source `break`s); when all characters are
alphanumeric, take the suffix from the first letter. -/
def normalizeStage4 (p : List Char) : Option (List Char) :=
  if p ≠ [] ∧ pyIsAlpha ((p.getLast?).getD ' ') then
    match lastNonAlnumIdx p with
    | some i =>
      match p.drop (i + 1) with
      | r0 :: rs => if pyIsAlpha r0 then some (r0 :: rs) else none
      | [] => none
    | none =>
      match firstAlphaIdx p with
      | some j => some (p.drop j)
      | none => none
  else none

/-- Stage: fallback — first character a letter, keep it plus one following
digit.  An empty (all-whitespace) id would make the source raise IndexError
at `problem_id[0]`; that exceptional path is modelled as `none`. -/
def normalizeStage5 (p : List Char) : Option (List Char) :=
  match p with
  | [] => none
  | c :: rest =>
    if pyIsAlpha c then
      match rest with
      | d :: _ => if pyIsDigit d then some [c, d] else some [c]
      | [] => some [c]
    else none

/-- `_normalize_problem_id`: strip, upper-case, then the source's stage
chain. -/
def normalizeProblemId (pid : List Char) : Option (List Char) :=
  if pid = [] then none
  else
    let p := pyUpper (pyStrip pid)
    if p.length = 1 ∧ pyIsAlpha (p.headD ' ') then some p
    else match normalizeStage2 p with
    | some r => some r
    | none => match normalizeStage3 p with
      | some r => some r
      | none => match normalizeStage4 p with
        | some r => some r
        | none => normalizeStage5 p

/-- `_normalize_problem_id` applied to a raw JSON field: the source's
`isinstance(problem_id, str)` check maps every non-string to `None`. -/
def normalizeProblemIdJson : Json → Option (List Char)
  | Json.str s => normalizeProblemId s
  | _ => none

/-! ## `_extract_text_between_markers` (Marker Extractor, editorial_content_parser.py:825) -/

/-- `_extract_text_between_markers(text, start_marker, end_marker)`. -/
def extractTextBetweenMarkers (text sm em : List Char) : List Char :=
  match strFind text sm with
  | none => []
  | some pos =>
    let startPos := pos + sm.length
    if em ≠ [] then
      match strFindFrom text em startPos with
      | none => pyStrip (text.drop startPos)
      | some endPos => pyStrip (pySlice text startPos endPos)
    else pyStrip (text.drop startPos)

/-! ## SegmentationResult and the two normalizer shapes
(`_process_parsed_json`, `_parse_new_format`, `_parse_old_format`,
editorial_content_parser.py:813-914)

A SegmentationResult is the dict mapping `(contest_id, problem_letter)` to
extracted text, modelled as an association list with Python-dict insertion
semantics.  The contest identifier is `Option`-typed: `none` models the
Python `None` sentinel used by the legacy shape. -/

/-- Key of a SegmentationResult entry. -/
abbrev SegKey := Option (List Char) × List Char

/-- A SegmentationResult: association list with unique keys. -/
abbrev SegResult := List (SegKey × List Char)

/-- Python dict assignment `d[k] = v` (generic): replace in place when the
key exists, else append. -/
def pyDictInsert {α β : Type} [BEq α] (m : List (α × β)) (k : α) (v : β) :
    List (α × β) :=
  if m.any (fun kv => kv.1 == k) then
    m.map (fun kv => if kv.1 == k then (kv.1, v) else kv)
  else m ++ [(k, v)]

/-- Python dict lookup `d.get(k)` (generic). -/
def pyDictGet {α β : Type} [BEq α] (m : List (α × β)) (k : α) : Option β :=
  (m.find? (fun kv => kv.1 == k)).map (fun kv => kv.2)

/-- `item.get(key)` on a parsed JSON object. -/
def objGet (kvs : List (List Char × Json)) (k : List Char) : Option Json :=
  (kvs.find? (fun kv => kv.1 == k)).map (fun kv => kv.2)

/-- `key in item` on a parsed JSON object. -/
def hasKey (kvs : List (List Char × Json)) (k : List Char) : Bool :=
  kvs.any (fun kv => kv.1 == k)

/-- `item.get(key, "")` followed by use as a string: missing keys default to
`""`; a non-string value means the source's subsequent `.strip()` raises
AttributeError, modelled as `none`. -/
def getStrField (kvs : List (List Char × Json)) (k : List Char) :
    Option (List Char) :=
  match objGet kvs k with
  | none => some []
  | some (Json.str s) => some s
  | some _ => none

/-- Python truthiness of the optional `editorial_text` argument
(`None` and `""` are falsy). -/
def truthyOpt : Option (List Char) → Bool
  | some t => !t.isEmpty
  | none => false

/-- One iteration of the `_parse_new_format` item loop.  `none` models an
uncaught AttributeError (a non-string `start_marker`/`end_marker`/`analysis`
value). -/
def parseNewFormatStep (et : Option (List Char)) (item : Json) (acc : SegResult) :
    Option SegResult :=
  match item with
  | Json.obj kvs =>
    let contestId := pyStrip (pyStr ((objGet kvs (chars "contest_id")).getD (Json.str [])))
    let pid? := normalizeProblemIdJson ((objGet kvs (chars "problem_id")).getD (Json.str []))
    if hasKey kvs (chars "start_marker") ∧ truthyOpt et then
      match getStrField kvs (chars "start_marker"), getStrField kvs (chars "end_marker") with
      | some sm0, some em0 =>
        let sm := pyStrip sm0
        let em := pyStrip em0
        if contestId ≠ [] ∧ pid?.isSome ∧ sm ≠ [] then
          let analysis := extractTextBetweenMarkers (et.getD []) sm em
          if analysis ≠ [] then
            some (pyDictInsert acc (some contestId, pid?.getD []) analysis)
          else some acc
        else some acc
      | _, _ => none
    else
      match getStrField kvs (chars "analysis") with
      | some a0 =>
        let analysis := pyStrip a0
        if contestId ≠ [] ∧ pid?.isSome ∧ analysis ≠ [] then
          some (pyDictInsert acc (some contestId, pid?.getD []) analysis)
        else some acc
      | none => none
  | _ => some acc

/-- `_parse_new_format` item loop. -/
def parseNewFormatAux (et : Option (List Char)) :
    List Json → SegResult → Option SegResult
  | [], acc => some acc
  | item :: rest, acc =>
    match parseNewFormatStep et item acc with
    | some acc2 => parseNewFormatAux et rest acc2
    | none => none

/-- `_parse_new_format(problems, editorial_text)`. -/
def parseNewFormat (items : List Json) (et : Option (List Char)) :
    Option SegResult :=
  parseNewFormatAux et items []

/-- `_parse_old_format(result, primary_contest_id)`: flat mapping of
problem-letter keys to inline text; entries keyed with the `None` contest
sentinel.  (The `primary_contest_id` argument is only logged, never used.) -/
def parseOldFormat (kvs : List (List Char × Json)) : SegResult :=
  kvs.foldl
    (fun acc kv =>
      match kv.2 with
      | Json.str v =>
        if pyStrip v ≠ [] then
          match normalizeProblemId kv.1 with
          | some pid => pyDictInsert acc ((none : Option (List Char)), pid) (pyStrip v)
          | none => acc
        else acc
      | _ => acc)
    []

/-- `_process_parsed_json` (the Response Normalizer entry point).  A
non-object top-level value makes the source raise (TypeError on string
indexing, or AttributeError on `.items()`), modelled as `none`. -/
def processParsedJson (result : Json) (et : Option (List Char)) :
    Option SegResult :=
  match result with
  | Json.obj kvs =>
    match objGet kvs (chars "problems") with
    | some (Json.arr ps) => parseNewFormat ps et
    | _ => some (parseOldFormat kvs)
  | _ => none

/-! ## `_parse_llm_response` (Segmentation Orchestrator response pipeline,
editorial_content_parser.py:688) -/

/-- Outcome of the response pipeline: a SegmentationResult, the raised
`LLMSegmentationError`, or an uncaught exception (crash). -/
inductive ParseOutcome where
  | ok (result : SegResult)
  | segError
  | crash
deriving DecidableEq

/-- The brace-extraction candidate: from the first brace to its matching
closing brace (or the rest of the response when unmatched), stripped. -/
def braceContent (response : List Char) (js : Nat) : List Char :=
  match findMatchingBrace response js with
  | none => pyStrip (response.drop js)
  | some je => pyStrip (pySlice response js (je + 1))

/-- The non-fenced arm of `_parse_llm_response`: locate the first brace,
sanitize, parse, and on failure invoke `_attempt_json_repair`; a raised
JSONDecodeError/ValueError becomes `LLMSegmentationError` (`segError`). -/
def braceStep (response : List Char) (et : Option (List Char)) : ParseOutcome :=
  match strFind response [lbrace] with
  | none => ParseOutcome.segError
  | some js =>
    let content := sanitizeJsonString (braceContent response js)
    match jsonParse content with
    | some j =>
      match processParsedJson j et with
      | some m => ParseOutcome.ok m
      | none => ParseOutcome.crash
    | none =>
      match attemptJsonRepair content with
      | some r =>
        match jsonParse r with
        | some j =>
          match processParsedJson j et with
          | some m => ParseOutcome.ok m
          | none => ParseOutcome.crash
        | none => ParseOutcome.segError
      | none => ParseOutcome.segError

/-- `_parse_llm_response(response, ..., editorial_text)`.  A fenced
```json block is tried first; if its closing fence exists, its sanitized
content is parsed and any failure raises (no fallback to the brace arm and
no repair).  Without a usable fence the brace arm runs. -/
def parseLLMResponse (response : List Char) (et : Option (List Char)) :
    ParseOutcome :=
  if strContains response (chars "```json") then
    let fs := (strFind response (chars "```json")).getD 0
    match strFindFrom response (chars "```") (fs + 7) with
    | some je =>
      let content := sanitizeJsonString (pyStrip (pySlice response (fs + 7) je))
      match jsonParse content with
      | some j =>
        match processParsedJson j et with
        | some m => ParseOutcome.ok m
        | none => ParseOutcome.crash
      | none => ParseOutcome.segError
    | none => braceStep response et
  else braceStep response et

/-! ## Contest-Aware Matcher (contest.py:104-129) -/

/-- One parsed editorial entry (domain object `Editorial`). -/
structure Editorial where
  contestId : Option (List Char)
  problemId : List Char
  analysisText : List Char
deriving DecidableEq

/-- The external `ContestProblem` entity (the fields the matcher touches). -/
structure ContestProblem where
  contestId : List Char
  id : List Char
  explanation : Option (List Char)
deriving DecidableEq

/-- `problem_solutions.items()` converted to domain objects
(parse_editorial_content, editorial_content_parser.py:92-95). -/
def segToEditorials (m : SegResult) : List Editorial :=
  m.map (fun kv => ⟨kv.1.1, kv.1.2, kv.2⟩)

/-- The explanation-map loop of `get_contest`: entries of the requested
contest are keyed by upper-cased problem letter; entries of other contests
are counted, never inserted. -/
def buildExplanationMap (eds : List Editorial) (requested : List Char) :
    List (List Char × List Char) × Nat :=
  eds.foldl
    (fun acc e =>
      if e.contestId = some requested then
        (pyDictInsert acc.1 (pyUpper e.problemId) e.analysisText, acc.2)
      else (acc.1, acc.2 + 1))
    ([], 0)

/-- The matcher: update every problem's `explanation` from the explanation
map (`explanation_map.get(problem.id.upper())`), returning the updated
problems and the skipped-entry count. -/
def applyExplanations (eds : List Editorial) (requested : List Char)
    (ps : List ContestProblem) : List ContestProblem × Nat :=
  let bm := buildExplanationMap eds requested
  (ps.map (fun p => { p with explanation := pyDictGet bm.1 (pyUpper p.id) }), bm.2)

/-- Spec-side lookup `result[(contestId, problemLetter.upper())]`: the entry
of the SegmentationResult (seen as a list of editorials) with the given
contest id and upper-cased problem letter. -/
def segLookup (eds : List Editorial) (cid letter : List Char) :
    Option (List Char) :=
  (eds.find? (fun e => e.contestId == some cid && pyUpper e.problemId == letter)).map
    (fun e => e.analysisText)

/-! ## Occurrence predicates and the specification of `str.find` -/

/-- `p` occurs in `t` at index `i`. -/
def occursAt (t p : List Char) (i : Nat) : Prop := p.isPrefixOf (t.drop i) = true

instance occursAtDecidable (t p : List Char) (i : Nat) : Decidable (occursAt t p i) := by
  unfold occursAt; infer_instance

/-- `i` is the first occurrence of `p` in `t`. -/
def firstOccurAt (t p : List Char) (i : Nat) : Prop :=
  occursAt t p i ∧ ∀ k < i, ¬ occursAt t p k

/-- `i` is the first occurrence of `p` in `t` at or after `start`. -/
def firstOccurFromAt (t p : List Char) (start i : Nat) : Prop :=
  start ≤ i ∧ occursAt t p i ∧ ∀ k < i, start ≤ k → ¬ occursAt t p k

/-- `p` occurs nowhere in `t` (bounded form, decidable). -/
def noOccur (t p : List Char) : Prop := ∀ k ≤ t.length, ¬ occursAt t p k

/-- `p` occurs nowhere in `t` at or after `start` (bounded form). -/
def noOccurFrom (t p : List Char) (start : Nat) : Prop :=
  ∀ k ≤ t.length, start ≤ k → ¬ occursAt t p k

instance firstOccurAtDecidable (t p : List Char) (i : Nat) :
    Decidable (firstOccurAt t p i) := by
  unfold firstOccurAt; infer_instance

instance firstOccurFromAtDecidable (t p : List Char) (start i : Nat) :
    Decidable (firstOccurFromAt t p start i) := by
  unfold firstOccurFromAt; infer_instance

instance noOccurDecidable (t p : List Char) : Decidable (noOccur t p) := by
  unfold noOccur; infer_instance

instance noOccurFromDecidable (t p : List Char) (start : Nat) :
    Decidable (noOccurFrom t p start) := by
  unfold noOccurFrom; infer_instance

theorem findAux_eq_some (p : List Char) :
    ∀ (s : List Char) (i d : Nat),
      p.isPrefixOf (s.drop d) = true →
      (∀ e < d, p.isPrefixOf (s.drop e) = false) →
      findAux p s i = some (i + d) := by
  intro s
  induction s with
  | nil =>
    intro i d h1 h2
    have hd0 : d = 0 := by
      by_contra hne
      have := h2 0 (Nat.pos_of_ne_zero hne)
      simp only [List.drop_nil] at h1 this
      rw [this] at h1; exact Bool.noConfusion h1
    subst hd0
    simp only [List.drop_nil] at h1
    simp [findAux, h1]
  | cons c rest ih =>
    intro i d h1 h2
    cases d with
    | zero =>
      simp only [List.drop] at h1
      simp [findAux, h1]
    | succ d2 =>
      have hhead : p.isPrefixOf (c :: rest) = false := by
        have := h2 0 (Nat.succ_pos d2)
        simpa using this
      have h1r : p.isPrefixOf (rest.drop d2) = true := by simpa using h1
      have h2r : ∀ e < d2, p.isPrefixOf (rest.drop e) = false := by
        intro e he
        have := h2 (e + 1) (by omega)
        simpa using this
      have := ih (i + 1) d2 h1r h2r
      simp only [findAux, hhead]
      rw [if_neg (by simp [hhead])]
      rw [this]; congr 1; omega

theorem findAux_eq_none (p : List Char) :
    ∀ (s : List Char) (i : Nat),
      (∀ e, p.isPrefixOf (s.drop e) = false) →
      findAux p s i = none := by
  intro s
  induction s with
  | nil =>
    intro i h
    have := h 0
    simp only [List.drop_nil] at this
    simp [findAux, this]
  | cons c rest ih =>
    intro i h
    have hhead := h 0
    simp only [List.drop] at hhead
    simp only [findAux]
    rw [if_neg (by simp [hhead])]
    exact ih (i + 1) (fun e => by simpa using h (e + 1))

/-- A bounded no-occurrence hypothesis extends to all indices. -/
theorem not_occursAt_of_noOccur {t p : List Char} (h : noOccur t p) :
    ∀ k, p.isPrefixOf (t.drop k) = false := by
  intro k
  by_cases hk : k ≤ t.length
  · have := h k hk
    unfold occursAt at this
    exact Bool.eq_false_iff.mpr this
  · have hlen := h t.length (Nat.le_refl _)
    unfold occursAt at hlen
    rw [List.drop_length] at hlen
    have hdrop : t.drop k = [] := List.drop_eq_nil_of_le (by omega)
    rw [hdrop]
    exact Bool.eq_false_iff.mpr hlen

theorem strFind_eq_some_of_firstOccur {t p : List Char} {i : Nat}
    (h : firstOccurAt t p i) : strFind t p = some i := by
  obtain ⟨h1, h2⟩ := h
  unfold strFind
  have := findAux_eq_some p t 0 i h1 (fun e he => Bool.eq_false_iff.mpr (h2 e he))
  simpa using this

theorem strFind_eq_none_of_noOccur {t p : List Char} (h : noOccur t p) :
    strFind t p = none :=
  findAux_eq_none p t 0 (not_occursAt_of_noOccur h)

/-- Length bound from a first occurrence: `i + p.length ≤ t.length`. -/
theorem firstOccurAt_length_le {t p : List Char} {i : Nat}
    (h : firstOccurAt t p i) : i + p.length ≤ t.length := by
  obtain ⟨h1, h2⟩ := h
  unfold occursAt at h1
  have hpre : p <+: t.drop i := List.isPrefixOf_iff_prefix.mp h1
  have hlen : p.length ≤ (t.drop i).length := hpre.length_le
  rw [List.length_drop] at hlen
  by_cases hi : i ≤ t.length
  · omega
  · rw [List.drop_eq_nil_of_le (by omega)] at hpre
    have hp : p = [] := List.prefix_nil.mp hpre
    subst hp
    have h0 : occursAt t [] 0 := by
      unfold occursAt
      simp [List.isPrefixOf]
    have := h2 0 (by omega)
    exact absurd h0 this

theorem strFindFrom_eq_some_of_firstOccurFrom {t p : List Char} {start i : Nat}
    (hstart : start ≤ t.length) (h : firstOccurFromAt t p start i) :
    strFindFrom t p start = some i := by
  obtain ⟨hle, h1, h2⟩ := h
  unfold strFindFrom
  rw [if_pos hstart]
  unfold occursAt at h1
  have h1d : p.isPrefixOf ((t.drop start).drop (i - start)) = true := by
    rw [List.drop_drop]
    have heq : start + (i - start) = i := by omega
    rw [heq]; exact h1
  have h2d : ∀ e < i - start, p.isPrefixOf ((t.drop start).drop e) = false := by
    intro e he
    rw [List.drop_drop]
    exact Bool.eq_false_iff.mpr (h2 (start + e) (by omega) (by omega))
  have := findAux_eq_some p (t.drop start) start (i - start) h1d h2d
  rw [this]; congr 1; omega

theorem strFindFrom_eq_none_of_noOccurFrom {t p : List Char} {start : Nat}
    (hstart : start ≤ t.length) (h : noOccurFrom t p start) :
    strFindFrom t p start = none := by
  unfold strFindFrom
  rw [if_pos hstart]
  apply findAux_eq_none
  intro e
  rw [List.drop_drop]
  by_cases hk : start + e ≤ t.length
  · exact Bool.eq_false_iff.mpr (h (start + e) hk (by omega))
  · have hlen := h t.length (Nat.le_refl _) hstart
    unfold occursAt at hlen
    rw [List.drop_length] at hlen
    rw [List.drop_eq_nil_of_le (by omega)]
    exact Bool.eq_false_iff.mpr hlen

/-! ## Strip and substring lemmas -/

theorem dropWhile_idem_self (p : Char → Bool) :
    ∀ l : List Char, (l.dropWhile p).dropWhile p = l.dropWhile p := by
  intro l
  induction l with
  | nil => simp
  | cons a as ih =>
    by_cases h : p a
    · simp [List.dropWhile_cons, h, ih]
    · simp [List.dropWhile_cons, h]

theorem pyRstrip_isPre (s : List Char) : pyRstrip s <+: s := by
  have h : s.reverse.dropWhile isPySpace <:+ s.reverse := List.dropWhile_suffix _
  have h2 : (pyRstrip s).reverse <:+ s.reverse := by
    unfold pyRstrip
    rw [List.reverse_reverse]
    exact h
  exact List.reverse_suffix.mp h2

theorem pyRstrip_idem (s : List Char) : pyRstrip (pyRstrip s) = pyRstrip s := by
  unfold pyRstrip
  rw [List.reverse_reverse, dropWhile_idem_self]

theorem pyRstrip_pyStrip (s : List Char) : pyRstrip (pyStrip s) = pyStrip s := by
  unfold pyStrip
  exact pyRstrip_idem _

theorem pyStrip_substr (s : List Char) : pyStrip s <:+: s := by
  unfold pyStrip pyLstrip
  exact (pyRstrip_isPre _).isInfix.trans (List.dropWhile_suffix isPySpace).isInfix

theorem pyRstrip_eq_nil_iff (s : List Char) :
    pyRstrip s = [] ↔ ∀ c ∈ s, isPySpace c = true := by
  unfold pyRstrip
  rw [List.reverse_eq_nil_iff, List.dropWhile_eq_nil_iff]
  constructor
  · intro h c hc
    exact h c (List.mem_reverse.mpr hc)
  · intro h c hc
    exact h c (List.mem_reverse.mp hc)

theorem pyStrip_eq_nil_iff (s : List Char) :
    pyStrip s = [] ↔ ∀ c ∈ s, isPySpace c = true := by
  unfold pyStrip
  rw [pyRstrip_eq_nil_iff]
  constructor
  · intro h c hc
    by_cases hw : isPySpace c
    · exact hw
    · exfalso
      have hsplit := List.takeWhile_append_dropWhile (p := isPySpace) (l := s)
      have hmem : c ∈ s.takeWhile isPySpace ∨ c ∈ s.dropWhile isPySpace := by
        rw [← List.mem_append, hsplit]
        exact hc
      rcases hmem with h1 | h2
      · exact hw (List.mem_takeWhile_imp h1)
      · exact hw (h c h2)
  · intro h c hc
    exact h c ((List.dropWhile_suffix isPySpace).subset hc)

theorem occursAt_of_substr_drop {u t : List Char} {sp : Nat}
    (h : u <:+: t.drop sp) : ∃ k, sp ≤ k ∧ occursAt t u k := by
  obtain ⟨pre, suf, hps⟩ := h
  refine ⟨sp + pre.length, by omega, ?_⟩
  unfold occursAt
  rw [← List.drop_drop, ← hps, List.append_assoc, List.drop_left]
  exact List.isPrefixOf_iff_prefix.mpr ⟨suf, rfl⟩

theorem pySlice_isPre_drop (t : List Char) (sp e : Nat) :
    pySlice t sp e <+: t.drop sp := by
  unfold pySlice
  rw [List.drop_take]
  exact ⟨(t.drop sp).drop (e - sp), List.take_append_drop _ _⟩

theorem strip_of_drop_part_substr {X t : List Char} {sp : Nat}
    (h : X <+: t.drop sp) : pyStrip X <:+: t :=
  (pyStrip_substr X).trans (h.isInfix.trans (t.drop_suffix sp).isInfix)

theorem strip_of_drop_part_occurs {X t : List Char} {sp : Nat}
    (h : X <+: t.drop sp) : ∃ k, sp ≤ k ∧ occursAt t (pyStrip X) k :=
  occursAt_of_substr_drop ((pyStrip_substr X).trans h.isInfix)

/-- Every Marker Extractor result is a contiguous substring of the article. -/
theorem extract_substr (t sm em : List Char) :
    extractTextBetweenMarkers t sm em <:+: t := by
  unfold extractTextBetweenMarkers
  cases hf : strFind t sm with
  | none => exact ⟨[], t, by simp⟩
  | some pos =>
    simp only
    by_cases hem : em ≠ []
    · rw [if_pos hem]
      cases hff : strFindFrom t em (pos + sm.length) with
      | none => exact strip_of_drop_part_substr (List.prefix_refl _)
      | some endPos => exact strip_of_drop_part_substr (pySlice_isPre_drop t _ endPos)
    · rw [if_neg hem]
      exact strip_of_drop_part_substr (List.prefix_refl _)

/-! ## Claim C5 — `_extract_text_between_markers` characterization -/

/-- Claim C5 (corrected): the extractor returns the empty string when the
start marker is absent; otherwise it returns the text between the position
just past the first start-marker occurrence and the first end-marker
occurrence at or after it (or to the end of the article when the end marker
is empty or absent) — in every non-empty case WITH LEADING AND TRAILING
WHITESPACE STRIPPED (`.strip()` in the source), not the exact span the
original claim states. -/
theorem claimC5_theorem (text sm em : List Char) :
    (noOccur text sm → extractTextBetweenMarkers text sm em = []) ∧
    (∀ i, firstOccurAt text sm i →
      (em = [] →
        extractTextBetweenMarkers text sm em = pyStrip (text.drop (i + sm.length))) ∧
      (∀ e, em ≠ [] → firstOccurFromAt text em (i + sm.length) e →
        extractTextBetweenMarkers text sm em = pyStrip (pySlice text (i + sm.length) e)) ∧
      (em ≠ [] → noOccurFrom text em (i + sm.length) →
        extractTextBetweenMarkers text sm em = pyStrip (text.drop (i + sm.length)))) := by
  constructor
  · intro h
    unfold extractTextBetweenMarkers
    rw [strFind_eq_none_of_noOccur h]
  · intro i hfo
    have hf := strFind_eq_some_of_firstOccur hfo
    have hsp : i + sm.length ≤ text.length := firstOccurAt_length_le hfo
    refine ⟨?_, ?_, ?_⟩
    · intro hem
      subst hem
      unfold extractTextBetweenMarkers
      rw [hf]
      simp
    · intro e hem hfrom
      unfold extractTextBetweenMarkers
      rw [hf]
      dsimp only
      rw [if_pos hem, strFindFrom_eq_some_of_firstOccurFrom hsp hfrom]
    · intro hem hno
      unfold extractTextBetweenMarkers
      rw [hf]
      dsimp only
      rw [if_pos hem, strFindFrom_eq_none_of_noOccurFrom hsp hno]

/-- Claim C5 counterexample: on article "AB C D" with markers "AB"/"D" the
text strictly between the markers is " C " (slice 2..5), but the extractor
returns the stripped "C" — not "exactly the text strictly between". -/
theorem claimC5_counterexample :
    extractTextBetweenMarkers (chars "AB C D") (chars "AB") (chars "D") = chars "C" ∧
    pySlice (chars "AB C D") 2 5 = chars " C " ∧
    chars "C" ≠ chars " C " := by
  refine ⟨by decide, by decide, by decide⟩

/-- Claim C5 witness: the between-markers branch of `claimC5_theorem`
instantiated on the counterexample article. -/
theorem claimC5_witness :
    firstOccurAt (chars "AB C D") (chars "AB") 0 ∧
    firstOccurFromAt (chars "AB C D") (chars "D") (0 + (chars "AB").length) 5 ∧
    extractTextBetweenMarkers (chars "AB C D") (chars "AB") (chars "D") =
      pyStrip (pySlice (chars "AB C D") (0 + (chars "AB").length) 5) :=
  ⟨by decide, by decide,
    ((claimC5_theorem (chars "AB C D") (chars "AB") (chars "D")).2 0 (by decide)).2.1 5
      (by decide) (by decide)⟩

/-! ## Claim C6 — grounding of extracted spans -/

/-- Claim C6 (corrected): when the start marker occurs, the extracted string
occurs verbatim in the article at SOME offset at or after the position just
past the marker (the stripped span's own offset); re-searching from the
beginning of the article may locate an earlier equal occurrence, and the
result is non-empty only when the captured span contains a non-whitespace
character (stated here for the trailing-capture case). -/
theorem claimC6_theorem (text sm em : List Char) (i : Nat)
    (h : strFind text sm = some i) :
    (∃ k, i + sm.length ≤ k ∧
      occursAt text (extractTextBetweenMarkers text sm em) k) ∧
    (em = [] → (∃ c ∈ text.drop (i + sm.length), isPySpace c = false) →
      extractTextBetweenMarkers text sm em ≠ []) := by
  constructor
  · unfold extractTextBetweenMarkers
    rw [h]
    dsimp only
    by_cases hem : em ≠ []
    · rw [if_pos hem]
      cases hff : strFindFrom text em (i + sm.length) with
      | none => exact strip_of_drop_part_occurs (List.prefix_refl _)
      | some endPos => exact strip_of_drop_part_occurs (pySlice_isPre_drop text _ endPos)
    · rw [if_neg hem]
      exact strip_of_drop_part_occurs (List.prefix_refl _)
  · intro hem hc
    subst hem
    unfold extractTextBetweenMarkers
    rw [h]
    dsimp only
    rw [if_neg (by simp)]
    intro hnil
    rw [pyStrip_eq_nil_iff] at hnil
    obtain ⟨c, hcmem, hcw⟩ := hc
    have := hnil c hcmem
    rw [this] at hcw
    exact Bool.noConfusion hcw

/-- Claim C6 counterexample: with article "AB" and start marker "AB" the
extractor returns the EMPTY string although the marker occurs; and with
article "XY ABXY", marker "AB", the extractor returns "XY" whose first
occurrence in the article is at offset 0, not at the extraction offset 5 —
both parts of the original claim fail. -/
theorem claimC6_counterexample :
    extractTextBetweenMarkers (chars "AB") (chars "AB") [] = [] ∧
    strFind (chars "AB") (chars "AB") = some 0 ∧
    extractTextBetweenMarkers (chars "XY ABXY") (chars "AB") [] = chars "XY" ∧
    strFind (chars "XY ABXY") (chars "AB") = some 3 ∧
    strFind (chars "XY ABXY") (chars "XY") = some 0 := by
  refine ⟨by decide, by decide, by decide, by decide, by decide⟩

/-- Claim C6 witness: `claimC6_theorem` instantiated on "XY ABXY"/"AB". -/
theorem claimC6_witness :
    strFind (chars "XY ABXY") (chars "AB") = some 3 ∧
    (∃ k, 3 + (chars "AB").length ≤ k ∧
      occursAt (chars "XY ABXY")
        (extractTextBetweenMarkers (chars "XY ABXY") (chars "AB") []) k) :=
  ⟨by decide, (claimC6_theorem (chars "XY ABXY") (chars "AB") [] 3 (by decide)).1⟩

/-! ## Claims C1 and C4 — Normalizer value invariants -/

theorem mem_pyDictInsert {α β : Type} [BEq α] [LawfulBEq α]
    {m : List (α × β)} {k : α} {v : β} :
    ∀ x ∈ pyDictInsert m k v, x ∈ m ∨ x = (k, v) := by
  intro x hx
  unfold pyDictInsert at hx
  split at hx
  · obtain ⟨kv, hkv, hmap⟩ := List.mem_map.mp hx
    by_cases hk : (kv.1 == k) = true
    · right
      rw [if_pos hk] at hmap
      rw [← hmap, eq_of_beq hk]
    · left
      rw [if_neg hk] at hmap
      rw [← hmap]
      exact hkv
  · rcases List.mem_append.mp hx with h1 | h2
    · left; exact h1
    · right; simpa using h2

/-- Values inserted by one new-format step are non-empty. -/
theorem parseNewFormatStep_nonempty {et : Option (List Char)} {item : Json}
    {acc acc2 : SegResult} (h : parseNewFormatStep et item acc = some acc2)
    (hacc : ∀ x ∈ acc, x.2 ≠ []) : ∀ x ∈ acc2, x.2 ≠ [] := by
  unfold parseNewFormatStep at h
  split at h
  case _ kvs =>
    dsimp only at h
    split at h
    · split at h
      case _ sm0 em0 =>
        split at h
        · split at h
          case isTrue hne =>
            cases h
            intro x hx
            rcases mem_pyDictInsert x hx with hm | hv
            · exact hacc x hm
            · rw [hv]; exact hne
          case isFalse =>
            cases h; exact hacc
        · cases h; exact hacc
      case _ hna hnb => exact Option.noConfusion h
    · split at h
      case _ a0 =>
        split at h
        case isTrue hcond =>
          cases h
          intro x hx
          rcases mem_pyDictInsert x hx with hm | hv
          · exact hacc x hm
          · rw [hv]; exact hcond.2.2
        case isFalse =>
          cases h; exact hacc
      case _ => exact Option.noConfusion h
  case _ =>
    cases h; exact hacc

theorem parseNewFormatAux_nonempty (et : Option (List Char)) :
    ∀ (items : List Json) (acc m : SegResult),
      parseNewFormatAux et items acc = some m →
      (∀ x ∈ acc, x.2 ≠ []) → ∀ x ∈ m, x.2 ≠ [] := by
  intro items
  induction items with
  | nil =>
    intro acc m h hacc
    unfold parseNewFormatAux at h
    cases h
    exact hacc
  | cons item rest ih =>
    intro acc m h hacc
    unfold parseNewFormatAux at h
    cases hstep : parseNewFormatStep et item acc with
    | none => rw [hstep] at h; exact Option.noConfusion h
    | some acc2 =>
      rw [hstep] at h
      exact ih acc2 m h (parseNewFormatStep_nonempty hstep hacc)

/-- The old-format fold keeps values non-empty and keys on the `None`
contest sentinel. -/
theorem parseOldFormat_go :
    ∀ (kvs : List (List Char × Json)) (acc : SegResult),
      (∀ x ∈ acc, x.2 ≠ [] ∧ x.1.1 = none) →
      ∀ x ∈ kvs.foldl
          (fun acc kv =>
            match kv.2 with
            | Json.str v =>
              if pyStrip v ≠ [] then
                match normalizeProblemId kv.1 with
                | some pid =>
                  pyDictInsert acc ((none : Option (List Char)), pid) (pyStrip v)
                | none => acc
              else acc
            | _ => acc)
          acc,
        x.2 ≠ [] ∧ x.1.1 = none := by
  intro kvs
  induction kvs with
  | nil =>
    intro acc hacc
    simpa using hacc
  | cons kv rest ih =>
    intro acc hacc
    rw [List.foldl_cons]
    apply ih
    cases hv : kv.2 with
    | str v =>
      simp only
      by_cases hne : pyStrip v ≠ []
      · rw [if_pos hne]
        cases hn : normalizeProblemId kv.1 with
        | some pid =>
          intro x hx
          rcases mem_pyDictInsert x hx with hm | hval
          · exact hacc x hm
          · rw [hval]
            exact ⟨hne, rfl⟩
        | none =>
          exact hacc
      · rw [if_neg hne]
        exact hacc
    | null => exact hacc
    | bool b => exact hacc
    | num lx => exact hacc
    | arr xs => exact hacc
    | obj o => exact hacc

/-- One new-format step keeps all values infixes of the article, provided the
item carries a `start_marker` key (so the inline-`analysis` fallback cannot
run) and the article text is non-empty (Python truthiness of
`editorial_text`). -/
theorem parseNewFormatStep_substr {text : List Char} {item : Json}
    {acc acc2 : SegResult} (htext : text ≠ [])
    (hitem : ∀ kvs, item = Json.obj kvs → hasKey kvs (chars "start_marker") = true)
    (h : parseNewFormatStep (some text) item acc = some acc2)
    (hacc : ∀ x ∈ acc, x.2 <:+: text) : ∀ x ∈ acc2, x.2 <:+: text := by
  unfold parseNewFormatStep at h
  split at h
  case _ kvs =>
    dsimp only at h
    split at h
    · split at h
      case _ sm0 em0 =>
        split at h
        · split at h
          case isTrue hne =>
            cases h
            intro x hx
            rcases mem_pyDictInsert x hx with hm | hv
            · exact hacc x hm
            · rw [hv]
              exact extract_substr text _ _
          case isFalse =>
            cases h; exact hacc
        · cases h; exact hacc
      case _ hna hnb => exact Option.noConfusion h
    · case _ hcond =>
        exfalso
        apply hcond
        refine ⟨hitem kvs rfl, ?_⟩
        simp [truthyOpt, htext]
  case _ =>
    cases h; exact hacc

theorem parseNewFormatAux_substr {text : List Char} (htext : text ≠ []) :
    ∀ (items : List Json) (acc m : SegResult),
      (∀ item ∈ items, ∀ kvs, item = Json.obj kvs →
        hasKey kvs (chars "start_marker") = true) →
      parseNewFormatAux (some text) items acc = some m →
      (∀ x ∈ acc, x.2 <:+: text) → ∀ x ∈ m, x.2 <:+: text := by
  intro items
  induction items with
  | nil =>
    intro acc m _ h hacc
    unfold parseNewFormatAux at h
    cases h
    exact hacc
  | cons item rest ih =>
    intro acc m hmk h hacc
    unfold parseNewFormatAux at h
    cases hstep : parseNewFormatStep (some text) item acc with
    | none => rw [hstep] at h; exact Option.noConfusion h
    | some acc2 =>
      rw [hstep] at h
      exact ih acc2 m (fun it hit => hmk it (List.mem_cons_of_mem _ hit)) h
        (parseNewFormatStep_substr htext (hmk item (List.mem_cons_self _ _)) hstep hacc)

/-- Claim C1 (corrected): for marker-shape responses — every item an object
carrying a `start_marker` key, with non-empty article text — every value of
the resulting SegmentationResult is a verbatim contiguous substring of the
article.  (The legacy flat-map shape does NOT have this property; see the
counterexample.) -/
theorem claimC1_theorem (items : List Json) (text : List Char) (m : SegResult)
    (htext : text ≠ [])
    (hmarked : ∀ item ∈ items, ∀ kvs, item = Json.obj kvs →
      hasKey kvs (chars "start_marker") = true)
    (hp : parseNewFormat items (some text) = some m) :
    ∀ x ∈ m, x.2 <:+: text := by
  unfold parseNewFormat at hp
  exact parseNewFormatAux_substr htext items [] m hmarked hp (by intro x hx; cases hx)

/-- Claim C1 counterexample: a legacy flat-map response `\x7b"A": "hello"\x7d`
against article "xyz" produces the value "hello", which is not a substring
of the article — the Normalizer's legacy shape stores model-generated text
verbatim from the response, not from the article. -/
theorem claimC1_counterexample :
    processParsedJson (Json.obj [(chars "A", Json.str (chars "hello"))])
        (some (chars "xyz")) =
      some [(((none : Option (List Char)), chars "A"), chars "hello")] ∧
    strContains (chars "xyz") (chars "hello") = false :=
  ⟨by decide, by decide⟩

/-- Items of the claim C1 witness: one well-formed marker-shape entry. -/
def c1WitnessItems : List Json :=
  [Json.obj [(chars "contest_id", Json.str (chars "1900")),
             (chars "problem_id", Json.str (chars "A")),
             (chars "start_marker", Json.str (chars "Problem A")),
             (chars "end_marker", Json.str [])]]

/-- Article of the claim C1 witness. -/
def c1WitnessText : List Char := chars "xx Problem A solution"

/-- Claim C1 witness: `claimC1_theorem` instantiated on a concrete
marker-shape response. -/
theorem claimC1_witness :
    c1WitnessText ≠ [] ∧
    parseNewFormat c1WitnessItems (some c1WitnessText) =
      some [((some (chars "1900"), chars "A"), chars "solution")] ∧
    ∀ x ∈ [((some (chars "1900"), chars "A"), chars "solution")],
      x.2 <:+: c1WitnessText :=
  ⟨by decide, by decide,
    claimC1_theorem c1WitnessItems c1WitnessText _ (by decide)
      (by
        intro item hitem kvs hkv
        rw [c1WitnessItems, List.mem_singleton] at hitem
        subst hitem
        injection hkv with hk
        subst hk
        decide)
      (by decide)⟩

/-- Claim C4 (confirmed): every value of a SegmentationResult produced by the
Normalizer (either shape) is a non-empty string — entries whose extraction or
inline text is empty are dropped, never inserted empty. -/
theorem claimC4_theorem (j : Json) (et : Option (List Char)) (m : SegResult)
    (h : processParsedJson j et = some m) : ∀ x ∈ m, x.2 ≠ [] := by
  unfold processParsedJson at h
  cases j with
  | obj kvs =>
    dsimp only at h
    cases hg : objGet kvs (chars "problems") with
    | some pv =>
      rw [hg] at h
      cases pv with
      | arr ps =>
        exact parseNewFormatAux_nonempty et ps [] m h (by intro x hx; cases hx)
      | null =>
        cases h
        unfold parseOldFormat
        intro x hx
        exact (parseOldFormat_go kvs [] (by intro x hx; cases hx) x hx).1
      | bool b =>
        cases h
        unfold parseOldFormat
        intro x hx
        exact (parseOldFormat_go kvs [] (by intro x hx; cases hx) x hx).1
      | num lx =>
        cases h
        unfold parseOldFormat
        intro x hx
        exact (parseOldFormat_go kvs [] (by intro x hx; cases hx) x hx).1
      | str s =>
        cases h
        unfold parseOldFormat
        intro x hx
        exact (parseOldFormat_go kvs [] (by intro x hx; cases hx) x hx).1
      | obj o =>
        cases h
        unfold parseOldFormat
        intro x hx
        exact (parseOldFormat_go kvs [] (by intro x hx; cases hx) x hx).1
    | none =>
      rw [hg] at h
      cases h
      unfold parseOldFormat
      intro x hx
      exact (parseOldFormat_go kvs [] (by intro x hx; cases hx) x hx).1
  | null => exact Option.noConfusion h
  | bool b => exact Option.noConfusion h
  | num lx => exact Option.noConfusion h
  | str s => exact Option.noConfusion h
  | arr xs => exact Option.noConfusion h

/-- Claim C4 witness: `claimC4_theorem` on a concrete legacy response whose
values get stripped to non-empty text. -/
theorem claimC4_witness :
    processParsedJson (Json.obj [(chars "A", Json.str (chars " x "))]) none =
      some [(((none : Option (List Char)), chars "A"), chars "x")] ∧
    ∀ x ∈ [(((none : Option (List Char)), chars "A"), chars "x")],
      x.2 ≠ ([] : List Char) :=
  ⟨by decide,
    claimC4_theorem (Json.obj [(chars "A", Json.str (chars " x "))]) none
      [(((none : Option (List Char)), chars "A"), chars "x")] (by decide)⟩

/-! ## Claims C2 and C10 — Contest-Aware Matcher -/

theorem any_key_tail {α β : Type} [BEq α] {kv : α × β} {ms : List (α × β)} {k : α}
    (hany : ((kv :: ms).any fun kv => kv.1 == k) = true)
    (hk : (kv.1 == k) = false) : (ms.any fun kv => kv.1 == k) = true := by
  rcases List.any_eq_true.mp hany with ⟨x, hx, hpx⟩
  rcases List.mem_cons.mp hx with h1 | h2
  · rw [h1] at hpx
    rw [hpx] at hk
    exact Bool.noConfusion hk
  · exact List.any_eq_true.mpr ⟨x, h2, hpx⟩

theorem any_key_cons_false {α β : Type} [BEq α] {kv : α × β} {ms : List (α × β)}
    {k : α} (hany : ¬ ((kv :: ms).any fun kv => kv.1 == k) = true) :
    (kv.1 == k) = false ∧ ¬ (ms.any fun kv => kv.1 == k) = true := by
  constructor
  · cases hcb : (kv.1 == k) with
    | false => rfl
    | true =>
      exact absurd (List.any_eq_true.mpr ⟨kv, List.mem_cons_self _ _, hcb⟩) hany
  · intro hc
    rcases List.any_eq_true.mp hc with ⟨x, hx, hpx⟩
    exact hany (List.any_eq_true.mpr ⟨x, List.mem_cons_of_mem _ hx, hpx⟩)

theorem pyDictGet_map_update {α β : Type} [BEq α] [LawfulBEq α]
    (k k2 : α) (v : β) (hne : k2 ≠ k) :
    ∀ m : List (α × β),
      pyDictGet (m.map fun kv => if kv.1 == k then (kv.1, v) else kv) k2 =
        pyDictGet m k2 := by
  intro m
  induction m with
  | nil => simp
  | cons kv ms ih =>
    rw [List.map_cons]
    by_cases hk2 : (kv.1 == k2) = true
    · have hkk : (kv.1 == k) = false := by
        cases hcb : (kv.1 == k) with
        | false => rfl
        | true =>
          exact absurd (by rw [← eq_of_beq hcb]; exact (eq_of_beq hk2).symm)
            (fun h => hne h)
      rw [if_neg (by simp [hkk])]
      unfold pyDictGet
      rw [List.find?_cons_of_pos _ (by simpa using hk2),
        List.find?_cons_of_pos _ (by simpa using hk2)]
    · by_cases hkk : (kv.1 == k) = true
      · rw [if_pos hkk]
        unfold pyDictGet at ih ⊢
        rw [List.find?_cons_of_neg _ (by simpa using hk2),
          List.find?_cons_of_neg _ (by simpa using hk2)]
        exact ih
      · rw [if_neg hkk]
        unfold pyDictGet at ih ⊢
        rw [List.find?_cons_of_neg _ (by simpa using hk2),
          List.find?_cons_of_neg _ (by simpa using hk2)]
        exact ih

theorem pyDictGet_insert_self {α β : Type} [BEq α] [LawfulBEq α]
    (m : List (α × β)) (k : α) (v : β) :
    pyDictGet (pyDictInsert m k v) k = some v := by
  unfold pyDictInsert
  by_cases hany : (m.any fun kv => kv.1 == k) = true
  · rw [if_pos hany]
    induction m with
    | nil => simp at hany
    | cons kv ms ih =>
      rw [List.map_cons]
      by_cases hk : (kv.1 == k) = true
      · rw [if_pos hk]
        unfold pyDictGet
        rw [List.find?_cons_of_pos _ (by simpa using hk)]
        simp
      · rw [if_neg hk]
        unfold pyDictGet at ih ⊢
        rw [List.find?_cons_of_neg _ (by simpa using hk)]
        exact ih (any_key_tail hany (Bool.not_eq_true _ ▸ hk))
  · rw [if_neg hany]
    induction m with
    | nil =>
      unfold pyDictGet
      rw [List.nil_append, List.find?_cons_of_pos _ (by simp)]
      simp
    | cons kv ms ih =>
      obtain ⟨hhead, hrest⟩ := any_key_cons_false hany
      rw [List.cons_append]
      unfold pyDictGet at ih ⊢
      rw [List.find?_cons_of_neg _ (by simpa using hhead)]
      exact ih hrest

theorem pyDictGet_insert_ne {α β : Type} [BEq α] [LawfulBEq α]
    (m : List (α × β)) (k k2 : α) (v : β) (hne : k2 ≠ k) :
    pyDictGet (pyDictInsert m k v) k2 = pyDictGet m k2 := by
  unfold pyDictInsert
  by_cases hany : (m.any fun kv => kv.1 == k) = true
  · rw [if_pos hany]
    exact pyDictGet_map_update k k2 v hne m
  · rw [if_neg hany]
    induction m with
    | nil =>
      unfold pyDictGet
      rw [List.nil_append,
        List.find?_cons_of_neg _
          (by
            intro h
            exact hne (eq_of_beq h).symm)]
    | cons kv ms ih =>
      obtain ⟨hhead, hrest⟩ := any_key_cons_false hany
      rw [List.cons_append]
      by_cases hk2 : (kv.1 == k2) = true
      · unfold pyDictGet
        rw [List.find?_cons_of_pos _ (by simpa using hk2),
          List.find?_cons_of_pos _ (by simpa using hk2)]
      · unfold pyDictGet at ih ⊢
        rw [List.find?_cons_of_neg _ (by simpa using hk2),
          List.find?_cons_of_neg _ (by simpa using hk2)]
        exact ih hrest

theorem bem_count (req : List Char) :
    ∀ (eds : List Editorial) (m0 : List (List Char × List Char)) (n0 : Nat),
      (List.foldl
        (fun acc e =>
          if e.contestId = some req then
            (pyDictInsert acc.1 (pyUpper e.problemId) e.analysisText, acc.2)
          else (acc.1, acc.2 + 1))
        (m0, n0) eds).2 =
      n0 + (eds.filter fun e => !(e.contestId == some req)).length := by
  intro eds
  induction eds with
  | nil => intro m0 n0; simp
  | cons e rest ih =>
    intro m0 n0
    rw [List.foldl_cons]
    dsimp only
    by_cases he : e.contestId = some req
    · rw [if_pos he]
      rw [ih]
      have hb : (e.contestId == some req) = true := beq_iff_eq.mpr he
      simp [List.filter_cons, hb]
    · rw [if_neg he]
      rw [ih]
      have hb : (e.contestId == some req) = false := beq_eq_false_iff_ne.mpr he
      simp only [List.filter_cons, hb, Bool.not_false, if_true, List.length_cons]
      omega

theorem segLookup_mem {eds : List Editorial} {req u v : List Char}
    (h : segLookup eds req u = some v) :
    (some req, u) ∈ eds.map fun e => (e.contestId, pyUpper e.problemId) := by
  unfold segLookup at h
  cases hf : eds.find? (fun e => e.contestId == some req && pyUpper e.problemId == u) with
  | none => rw [hf] at h; exact Option.noConfusion h
  | some e2 =>
    have hmem := List.mem_of_find?_eq_some hf
    have hpred := List.find?_some hf
    simp only [Bool.and_eq_true, beq_iff_eq] at hpred
    exact List.mem_map.mpr ⟨e2, hmem, by rw [hpred.1, hpred.2]⟩

theorem bem_lookup (req : List Char) :
    ∀ (eds : List Editorial) (m0 : List (List Char × List Char)) (n0 : Nat)
      (u : List Char),
      ((eds.map fun e => (e.contestId, pyUpper e.problemId)).Nodup) →
      pyDictGet
        (List.foldl
          (fun acc e =>
            if e.contestId = some req then
              (pyDictInsert acc.1 (pyUpper e.problemId) e.analysisText, acc.2)
            else (acc.1, acc.2 + 1))
          (m0, n0) eds).1 u =
        (match segLookup eds req u with
         | some v => some v
         | none => pyDictGet m0 u) := by
  intro eds
  induction eds with
  | nil =>
    intro m0 n0 u _
    simp [segLookup]
  | cons e rest ih =>
    intro m0 n0 u hnd
    rw [List.foldl_cons]
    dsimp only
    rw [List.map_cons, List.nodup_cons] at hnd
    obtain ⟨hnotin, hndrest⟩ := hnd
    by_cases he : e.contestId = some req
    · rw [if_pos he]
      by_cases hu : pyUpper e.problemId = u
      · have hcond : (e.contestId == some req && pyUpper e.problemId == u) = true := by
          simp [beq_iff_eq, he, hu]
        have hsl : segLookup (e :: rest) req u = some e.analysisText := by
          unfold segLookup
          simp only [List.find?_cons, hcond]
          simp
        rw [hsl]
        have hslrest : segLookup rest req u = none := by
          cases hsr : segLookup rest req u with
          | none => rfl
          | some v2 =>
            exfalso
            apply hnotin
            have hm := segLookup_mem hsr
            rw [he, hu]
            exact hm
        rw [ih _ n0 u hndrest, hslrest]
        rw [← hu]
        exact pyDictGet_insert_self m0 (pyUpper e.problemId) e.analysisText
      · have hcond : (e.contestId == some req && pyUpper e.problemId == u) = false := by
          have : (pyUpper e.problemId == u) = false := beq_eq_false_iff_ne.mpr hu
          simp [this]
        have hsl : segLookup (e :: rest) req u = segLookup rest req u := by
          unfold segLookup
          simp only [List.find?_cons, hcond]
        rw [hsl, ih _ n0 u hndrest]
        cases hsr : segLookup rest req u with
        | some v2 => rfl
        | none =>
          exact pyDictGet_insert_ne m0 (pyUpper e.problemId) u e.analysisText
            (fun hh => hu hh.symm)
    · rw [if_neg he]
      have hcond : (e.contestId == some req && pyUpper e.problemId == u) = false := by
        have : (e.contestId == some req) = false := beq_eq_false_iff_ne.mpr he
        simp [this]
      have hsl : segLookup (e :: rest) req u = segLookup rest req u := by
        unfold segLookup
        simp only [List.find?_cons, hcond]
      rw [hsl]
      exact ih m0 (n0 + 1) u hndrest

/-- Claim C2 (confirmed): for a SegmentationResult with unique
(contest id, upper-cased letter) keys, the matcher sets each problem's
explanation to `result[(requested, problem.id.upper())]` when present (null
otherwise), and the skipped-entry count equals the number of entries whose
contest identifier differs from the requested contest. -/
theorem claimC2_theorem (eds : List Editorial) (req : List Char)
    (ps : List ContestProblem)
    (hnd : (eds.map fun e => (e.contestId, pyUpper e.problemId)).Nodup) :
    applyExplanations eds req ps =
      (ps.map fun p => { p with explanation := segLookup eds req (pyUpper p.id) },
       (eds.filter fun e => !(e.contestId == some req)).length) := by
  unfold applyExplanations buildExplanationMap
  dsimp only
  rw [Prod.mk.injEq]
  constructor
  · apply List.map_congr_left
    intro p _
    have hlook := bem_lookup req eds [] 0 (pyUpper p.id) hnd
    rw [hlook]
    cases segLookup eds req (pyUpper p.id) <;> simp [pyDictGet]
  · rw [bem_count req eds [] 0]
    simp

/-- Editorials of the claim C2 witness: the two-division scenario. -/
def c2WitnessEds : List Editorial :=
  [⟨some (chars "1900"), chars "A", chars "s1"⟩,
   ⟨some (chars "1901"), chars "A", chars "s2"⟩]

/-- Problems of the claim C2 witness. -/
def c2WitnessProblems : List ContestProblem :=
  [⟨chars "1900", chars "a", none⟩, ⟨chars "1900", chars "b", none⟩]

/-- Claim C2 witness: `claimC2_theorem` on the two-division scenario — the
1900 entry is attached, the 1901 entry is skipped and counted. -/
theorem claimC2_witness :
    (c2WitnessEds.map fun e => (e.contestId, pyUpper e.problemId)).Nodup ∧
    applyExplanations c2WitnessEds (chars "1900") c2WitnessProblems =
      (c2WitnessProblems.map fun p =>
        { p with explanation := segLookup c2WitnessEds (chars "1900") (pyUpper p.id) },
       (c2WitnessEds.filter fun e => !(e.contestId == some (chars "1900"))).length) :=
  ⟨by decide, claimC2_theorem c2WitnessEds (chars "1900") c2WitnessProblems (by decide)⟩

theorem bem_allskip (req : List Char) :
    ∀ (eds : List Editorial) (m0 : List (List Char × List Char)) (n0 : Nat),
      (∀ e ∈ eds, e.contestId = none) →
      List.foldl
        (fun acc e =>
          if e.contestId = some req then
            (pyDictInsert acc.1 (pyUpper e.problemId) e.analysisText, acc.2)
          else (acc.1, acc.2 + 1))
        (m0, n0) eds = (m0, n0 + eds.length) := by
  intro eds
  induction eds with
  | nil => intro m0 n0 _; simp
  | cons e rest ih =>
    intro m0 n0 hall
    rw [List.foldl_cons]
    dsimp only
    have he := hall e (List.mem_cons_self _ _)
    rw [if_neg (by rw [he]; exact fun hc => Option.noConfusion hc)]
    rw [ih m0 (n0 + 1) (fun e2 h2 => hall e2 (List.mem_cons_of_mem _ h2))]
    rw [List.length_cons]
    congr 1
    omega

/-- Claim C10 (confirmed): legacy flat-map entries carry the `None` contest
sentinel, which never equals a requested contest identifier string, so after
matching a purely legacy result every problem's explanation is null and
every legacy entry is counted as belonging to another contest. -/
theorem claimC10_theorem (kvs : List (List Char × Json)) (req : List Char)
    (ps : List ContestProblem) :
    applyExplanations (segToEditorials (parseOldFormat kvs)) req ps =
      (ps.map fun p => { p with explanation := none },
       (parseOldFormat kvs).length) := by
  have hall : ∀ e ∈ segToEditorials (parseOldFormat kvs), e.contestId = none := by
    intro e he
    unfold segToEditorials at he
    obtain ⟨kv, hkv, hek⟩ := List.mem_map.mp he
    have hkv2 : kv ∈ parseOldFormat kvs := hkv
    unfold parseOldFormat at hkv2
    have hk := (parseOldFormat_go kvs [] (by intro x hx; cases hx) kv hkv2).2
    rw [← hek]
    exact hk
  unfold applyExplanations buildExplanationMap
  dsimp only
  rw [bem_allskip req _ [] 0 hall]
  dsimp only
  rw [Prod.mk.injEq]
  constructor
  · apply List.map_congr_left
    intro p _
    simp [pyDictGet]
  · have hlen : (segToEditorials (parseOldFormat kvs)).length =
        (parseOldFormat kvs).length := by
      unfold segToEditorials
      rw [List.length_map]
    omega

/-! ## Claim C9 — Response Sanitizer fast path -/

/-- Claim C9 (confirmed): for every input that already parses as JSON, the
sanitizer returns it unchanged.  (Totality holds by construction: the
embedded walk is a total function, mirroring the source's fully guarded
character loop which cannot raise.) -/
theorem claimC9_theorem (s : List Char) (h : (jsonParse s).isSome = true) :
    sanitizeJsonString s = s := by
  unfold sanitizeJsonString
  cases hj : jsonParse s with
  | some v => rfl
  | none => rw [hj] at h; exact Bool.noConfusion h

/-- Claim C9 witness: a concrete valid JSON input passes through unchanged. -/
theorem claimC9_witness :
    (jsonParse (chars "\x7b\"a\": \"b\"\x7d")).isSome = true ∧
    sanitizeJsonString (chars "\x7b\"a\": \"b\"\x7d") = chars "\x7b\"a\": \"b\"\x7d" :=
  ⟨by decide, claimC9_theorem (chars "\x7b\"a\": \"b\"\x7d") (by decide)⟩

/-! ## Claim C8 — Structural Repairer -/

/-- Claim C8 (corrected): (i) the repairer returns a string only if that
string parses as valid JSON (soundness, exactly as claimed); (ii) the
single-truncated-delimiter completion holds only under the repairer's
TEXTUAL counting — one unmatched `\x7b` (resp. `[`) counted over the whole
stripped string, brackets balanced, an even escape-aware quote count, and no
trailing comma; braces or brackets inside string literals break the count
and the original universal claim (see the counterexample). -/
theorem claimC8_theorem :
    (∀ s r, attemptJsonRepair s = some r → (jsonParse r).isSome = true) ∧
    (∀ s : List Char,
      (pyStrip s).count lbrace = (pyStrip s).count rbrace + 1 →
      (pyStrip s).count '[' = (pyStrip s).count ']' →
      quoteCountAux (pyStrip s) false % 2 = 0 →
      (pyStrip s).getLast? ≠ some ',' →
      (jsonParse (pyStrip s ++ [rbrace])).isSome = true →
      attemptJsonRepair s = some (pyStrip s ++ [rbrace])) ∧
    (∀ s : List Char,
      (pyStrip s).count lbrace = (pyStrip s).count rbrace →
      (pyStrip s).count '[' = (pyStrip s).count ']' + 1 →
      quoteCountAux (pyStrip s) false % 2 = 0 →
      (pyStrip s).getLast? ≠ some ',' →
      (jsonParse (pyStrip s ++ [']'])).isSome = true →
      attemptJsonRepair s = some (pyStrip s ++ [']'])) := by
  refine ⟨?_, ?_, ?_⟩
  · intro s r h
    unfold attemptJsonRepair at h
    dsimp only at h
    split at h
    case _ v hv =>
      injection h with h2
      rw [← h2, hv]
      rfl
    case _ => exact Option.noConfusion h
  · intro s h1 h2 h3 h4 h5
    have hq : ¬ (quoteCountAux (pyStrip s) false % 2 = 1) := by omega
    have e1 : ((pyStrip s).count lbrace : Int) - ((pyStrip s).count rbrace : Int) = 1 := by
      rw [h1]; omega
    have e2 : ((pyStrip s).count '[' : Int) - ((pyStrip s).count ']' : Int) = 0 := by
      rw [h2]; omega
    unfold attemptJsonRepair
    dsimp only
    rw [if_neg hq, pyRstrip_pyStrip, if_neg h4, e1, e2]
    simp only [Int.toNat_one, Int.toNat_zero, List.replicate_one, List.replicate_zero,
      List.append_nil]
    obtain ⟨v, hv⟩ := Option.isSome_iff_exists.mp h5
    rw [hv]
  · intro s h1 h2 h3 h4 h5
    have hq : ¬ (quoteCountAux (pyStrip s) false % 2 = 1) := by omega
    have e1 : ((pyStrip s).count lbrace : Int) - ((pyStrip s).count rbrace : Int) = 0 := by
      rw [h1]; omega
    have e2 : ((pyStrip s).count '[' : Int) - ((pyStrip s).count ']' : Int) = 1 := by
      rw [h2]; omega
    unfold attemptJsonRepair
    dsimp only
    rw [if_neg hq, pyRstrip_pyStrip, if_neg h4, e1, e2]
    simp only [Int.toNat_one, Int.toNat_zero, List.replicate_one, List.replicate_zero,
      List.append_nil]
    obtain ⟨v, hv⟩ := Option.isSome_iff_exists.mp h5
    rw [hv]

/-- Claim C8 counterexample: `\x7b"a": "\x7d"` becomes valid JSON after
appending exactly one trailing `\x7d`, yet `repair` returns null — the brace
inside the string literal defeats the textual count. -/
theorem claimC8_counterexample :
    (jsonParse (chars "\x7b\"a\": \"\x7d\"" ++ [rbrace])).isSome = true ∧
    attemptJsonRepair (chars "\x7b\"a\": \"\x7d\"") = none :=
  ⟨by decide, by decide⟩

/-- Claim C8 witness: the brace-completion branch of `claimC8_theorem` on the
truncated object `\x7b"a": 1`. -/
theorem claimC8_witness :
    (pyStrip (chars "\x7b\"a\": 1")).count lbrace =
      (pyStrip (chars "\x7b\"a\": 1")).count rbrace + 1 ∧
    (jsonParse (pyStrip (chars "\x7b\"a\": 1") ++ [rbrace])).isSome = true ∧
    attemptJsonRepair (chars "\x7b\"a\": 1") =
      some (pyStrip (chars "\x7b\"a\": 1") ++ [rbrace]) :=
  ⟨by decide, by decide,
    claimC8_theorem.2.1 (chars "\x7b\"a\": 1") (by decide) (by decide) (by decide)
      (by decide) (by decide)⟩

/-! ## Claim C3 — response pipeline order and repair -/

/-- Claim C3 (corrected): the fenced arm is tried first and the brace arm
second, but the Structural Repairer runs ONLY in the brace arm — when a
fenced block's sanitized content fails to parse, `SegmentationError` is
raised directly, with no repair and no fallback; in the brace arm a parse
failure always consults the repairer before the error. -/
theorem claimC3_theorem :
    (∀ (resp : List Char) (et : Option (List Char)) (fs je : Nat),
      strFind resp (chars "```json") = some fs →
      strFindFrom resp (chars "```") (fs + 7) = some je →
      jsonParse (sanitizeJsonString (pyStrip (pySlice resp (fs + 7) je))) = none →
      parseLLMResponse resp et = ParseOutcome.segError) ∧
    (∀ (resp : List Char) (et : Option (List Char)) (js : Nat),
      strFind resp (chars "```json") = none →
      strFind resp [lbrace] = some js →
      jsonParse (sanitizeJsonString (braceContent resp js)) = none →
      parseLLMResponse resp et =
        (match attemptJsonRepair (sanitizeJsonString (braceContent resp js)) with
         | some r =>
           (match jsonParse r with
            | some j =>
              (match processParsedJson j et with
               | some m => ParseOutcome.ok m
               | none => ParseOutcome.crash)
            | none => ParseOutcome.segError)
         | none => ParseOutcome.segError)) := by
  constructor
  · intro resp et fs je h1 h2 h3
    have hc : strContains resp (chars "```json") = true := by
      unfold strContains
      rw [h1]
      rfl
    unfold parseLLMResponse
    rw [if_pos hc, h1]
    dsimp only [Option.getD]
    rw [h2]
    dsimp only
    rw [h3]
  · intro resp et js h1 h2 h3
    have hc : ¬ strContains resp (chars "```json") = true := by
      unfold strContains
      rw [h1]
      simp
    unfold parseLLMResponse
    rw [if_neg hc]
    unfold braceStep
    rw [h2]
    dsimp only
    rw [h3]

/-- Claim C3 counterexample: a fenced response whose JSON is truncated — the
pipeline raises `SegmentationError` even though the Structural Repairer
succeeds on the very sanitized candidate the fenced arm abandoned, so the
error is NOT raised "only after all recovery attempts fail". -/
theorem claimC3_counterexample :
    parseLLMResponse (chars "```json\n\x7b\"a\": 1\n```") (some (chars "editorial")) =
      ParseOutcome.segError ∧
    (attemptJsonRepair (sanitizeJsonString (chars "\x7b\"a\": 1"))).isSome = true :=
  ⟨by decide, by decide⟩

/-- Response of the claim C3 witness: no fence, a truncated brace candidate. -/
def c3WitnessResp : List Char := chars "x \x7b\"a\": 1"

/-- Claim C3 witness: the brace arm of `claimC3_theorem` on a concrete
truncated response — the repairer runs and the pipeline succeeds. -/
theorem claimC3_witness :
    strFind c3WitnessResp (chars "```json") = none ∧
    strFind c3WitnessResp [lbrace] = some 2 ∧
    jsonParse (sanitizeJsonString (braceContent c3WitnessResp 2)) = none ∧
    parseLLMResponse c3WitnessResp (some (chars "t")) = ParseOutcome.ok [] := by
  refine ⟨by decide, by decide, Option.isNone_iff_eq_none.mp (by decide), ?_⟩
  rw [claimC3_theorem.2 c3WitnessResp (some (chars "t")) 2 (by decide) (by decide)
    (Option.isNone_iff_eq_none.mp (by decide))]
  decide

/-! ## Claim C7 — `_normalize_problem_id` on the specified inputs -/

theorem digit_bounds {c : Char} (h : pyIsDigit c = true) :
    48 ≤ c.toNat ∧ c.toNat ≤ 57 := by
  simpa [pyIsDigit, Bool.and_eq_true, decide_eq_true_eq] using h

theorem digit_not_space {c : Char} (h : pyIsDigit c = true) :
    isPySpace c = false := by
  have hb := digit_bounds h
  simp only [isPySpace, Bool.or_eq_false_iff, decide_eq_false_iff_not]
  omega

theorem digit_toUpper {c : Char} (h : pyIsDigit c = true) : pyToUpper c = c := by
  have hb := digit_bounds h
  unfold pyToUpper
  rw [if_neg (by omega), if_neg (by omega), if_neg (by omega)]

theorem digit_not_alpha {c : Char} (h : pyIsDigit c = true) :
    pyIsAlpha c = false := by
  have hb := digit_bounds h
  simp only [pyIsAlpha, pyIsAsciiAlpha, pyIsCyr, Bool.or_eq_false_iff,
    Bool.and_eq_false_iff, decide_eq_false_iff_not]
  omega

theorem beq_digit_false (c d : Char) (hc : 64 < c.toNat) (hd : pyIsDigit d = true) :
    (c == d) = false := by
  have hb := digit_bounds hd
  cases hcb : (c == d) with
  | false => rfl
  | true =>
    exfalso
    have hce := eq_of_beq hcb
    rw [hce] at hc
    omega

/-- Claim C7 (confirmed): the normalizer maps "A"→"A", "B"→"B", "c1"→"C1",
"C1"→"C1", "Problem A"→"A", the embedded form "1900C1" to null, and every
bare three-digit numeral to null. -/
theorem claimC7_theorem :
    normalizeProblemId (chars "A") = some (chars "A") ∧
    normalizeProblemId (chars "B") = some (chars "B") ∧
    normalizeProblemId (chars "c1") = some (chars "C1") ∧
    normalizeProblemId (chars "C1") = some (chars "C1") ∧
    normalizeProblemId (chars "Problem A") = some (chars "A") ∧
    normalizeProblemId (chars "1900C1") = none ∧
    (∀ d1 d2 d3 : Char, pyIsDigit d1 = true → pyIsDigit d2 = true →
      pyIsDigit d3 = true → normalizeProblemId [d1, d2, d3] = none) := by
  refine ⟨by decide, by decide, by decide, by decide, by decide, by decide, ?_⟩
  intro d1 d2 d3 h1 h2 h3
  have hb1 := digit_bounds h1
  have hb2 := digit_bounds h2
  have hb3 := digit_bounds h3
  unfold normalizeProblemId
  rw [if_neg (by simp)]
  have hstrip : pyStrip [d1, d2, d3] = [d1, d2, d3] := by
    simp [pyStrip, pyLstrip, pyRstrip, List.dropWhile_cons,
      digit_not_space h1, digit_not_space h2, digit_not_space h3]
  have hupper : pyUpper [d1, d2, d3] = [d1, d2, d3] := by
    simp [pyUpper, digit_toUpper h1, digit_toUpper h2, digit_toUpper h3]
  rw [hstrip, hupper]
  rw [if_neg (by simp)]
  have hpfx1 : (chars "PROBLEM ").isPrefixOf [d1, d2, d3] = false := by
    have hstep : chars "PROBLEM " = 'P' :: chars "ROBLEM " := rfl
    rw [hstep]
    simp [List.isPrefixOf, beq_digit_false 'P' d1 (by decide) h1]
  have hpfx2 : (chars "ЗАДАЧА ").isPrefixOf [d1, d2, d3] = false := by
    have hstep : chars "ЗАДАЧА " = 'З' :: chars "АДАЧА " := rfl
    rw [hstep]
    simp [List.isPrefixOf, beq_digit_false 'З' d1 (by decide) h1]
  have hs2 : normalizeStage2 [d1, d2, d3] = none := by
    unfold normalizeStage2
    rw [if_neg (by simp [hpfx1, hpfx2])]
  have hs3 : normalizeStage3 [d1, d2, d3] = none := by
    unfold normalizeStage3
    rw [if_neg (by intro hcond; simpa using hcond.1)]
  have hs4 : normalizeStage4 [d1, d2, d3] = none := by
    unfold normalizeStage4
    rw [if_neg (by
      intro hcond
      have h2c := hcond.2
      have hgl : (([d1, d2, d3].getLast?).getD ' ') = d3 := rfl
      rw [hgl, digit_not_alpha h3] at h2c
      exact Bool.noConfusion h2c)]
  have hs5 : normalizeStage5 [d1, d2, d3] = none := by
    unfold normalizeStage5
    dsimp only
    rw [digit_not_alpha h1]
    simp
  rw [hs2, hs3, hs4, hs5]

/-- Claim C7 witness: the three-digit-numeral conjunct of `claimC7_theorem`
at "900". -/
theorem claimC7_witness :
    pyIsDigit '9' = true ∧ pyIsDigit '0' = true ∧
    normalizeProblemId ['9', '0', '0'] = none :=
  ⟨by decide, by decide,
    claimC7_theorem.2.2.2.2.2.2 '9' '0' '0' (by decide) (by decide) (by decide)⟩
